import Mathlib

/-
A shallow embedding of the rabix workflow engine
(`rabix/runtime/engine/base.py`) together with proofs about its
resource-admission protocol, its sequential and multiprocessing execution
strategies, and its job status computation.

Python integers are unbounded, so machine integers are modelled as
`Int`/`Nat`.  The task graph, task and job containers
(`rabix.runtime.tasks`, `rabix.runtime.jobs`) are not part of the embedded
sources; where the proofs need them they are modelled from the
specification and marked as such.  Runner execution is abstracted by an
oracle assigning each task its `run()` outcome, and the asynchronous
completion checks of the worker pool by an oracle saying which in-flight
results are ready at each polling iteration.
-/

namespace Rabix

/-- Resource request attached to a task: `cpu` is a positive core count or
the `CPU_ALL` sentinel, `mem_mb` a non-negative amount of RAM (both are
Python integers in the source). -/
structure ResourceRequest where
  cpu : Int
  mem_mb : Nat
  deriving DecidableEq, Repr

/-- Modelled from the spec: the `CPU_ALL` sentinel lives in
`rabix.runtime.tasks`, which is not among the embedded sources.  The spec
describes it as "a distinguished value" distinct from every positive core
count, meaning "reserve every core, exclusively"; it is modelled as `-1`,
below every valid core count, so that in `acquire_resources` the generic
`res.cpu > self.available_cpu` comparison never fires for it against a
non-negative ledger. -/
def CPU_ALL : Int := -1

/-- Well-formedness of a request per the spec data model: `cpu` is a
positive integer or the `CPU_ALL` sentinel. -/
def ResourceRequest.wf (r : ResourceRequest) : Prop :=
  r.cpu = CPU_ALL ∨ 0 < r.cpu

/-- The `MultiprocessingEngine` resource ledger: the fields set up in
`MultiprocessingEngine.__init__` that `acquire_resources` and
`release_resources` operate on. -/
structure Ledger where
  total_cpu : Int
  total_ram : Int
  available_cpu : Int
  available_ram : Int
  multi_cpu_lock : Bool
  deriving DecidableEq, Repr

/-- Ledger right after engine construction: everything available and the
exclusive lock clear. -/
def Ledger.init (tc tr : Int) : Ledger :=
  { total_cpu := tc, total_ram := tr, available_cpu := tc,
    available_ram := tr, multi_cpu_lock := false }

/-- `MultiprocessingEngine.acquire_resources`, returning the admission
flag together with the (possibly) updated ledger.  The three guards and
the two mutation branches are transcribed in source order. -/
def acquire_resources (s : Ledger) (res : ResourceRequest) : Bool × Ledger :=
  if (res.mem_mb : Int) > s.available_ram then (false, s)
  else if res.cpu = CPU_ALL ∧ (s.multi_cpu_lock = true ∨ s.available_cpu ≠ s.total_cpu) then
    (false, s)
  else if res.cpu > s.available_cpu then (false, s)
  else if res.cpu = CPU_ALL then
    (true, { s with available_ram := s.available_ram - (res.mem_mb : Int),
                    multi_cpu_lock := true })
  else
    (true, { s with available_ram := s.available_ram - (res.mem_mb : Int),
                    available_cpu := s.available_cpu - res.cpu })

/-- `MultiprocessingEngine.release_resources`. -/
def release_resources (s : Ledger) (res : ResourceRequest) : Ledger :=
  if res.cpu = CPU_ALL then
    { s with available_ram := s.available_ram + (res.mem_mb : Int),
             multi_cpu_lock := false }
  else
    { s with available_ram := s.available_ram + (res.mem_mb : Int),
             available_cpu := s.available_cpu + res.cpu }

/-- Sum of the core counts held by admitted non-exclusive requests
(a `CPU_ALL` admission does not deduct from `available_cpu`). -/
def heldCpu (held : List ResourceRequest) : Int :=
  (held.map (fun r => if r.cpu = CPU_ALL then 0 else r.cpu)).sum

/-- Sum of the RAM held by admitted requests. -/
def heldRam (held : List ResourceRequest) : Int :=
  (held.map (fun r => (r.mem_mb : Int))).sum

/-- The admission/release protocol of the `MultiprocessingEngine`: a state
is the current ledger together with the multiset (as a list) of resource
requests of admitted-and-not-yet-released tasks.  An acquisition step
requires the source function to return `True`; a release step requires a
matching prior acquisition (the request is among the held ones), mirroring
that `release_resources` is keyed off the request recorded at acquisition
time. -/
inductive Reach (tc tr : Int) : Ledger → List ResourceRequest → Prop
  | start : Reach tc tr (Ledger.init tc tr) []
  | acq {s : Ledger} {held : List ResourceRequest} {r : ResourceRequest} {s' : Ledger} :
      Reach tc tr s held → r.wf → acquire_resources s r = (true, s') →
      Reach tc tr s' (r :: held)
  | rel {s : Ledger} {held : List ResourceRequest} {r : ResourceRequest} :
      Reach tc tr s held → r ∈ held →
      Reach tc tr (release_resources s r) (held.erase r)

/-- Task status as driven by the engines (the graph-internal READY
bookkeeping is folded into WAITING: a task that has not yet been
dispatched). -/
inductive TaskStatus
  | waiting
  | running
  | finished
  | failed
  deriving DecidableEq, Repr

/-- Outcome of a Runner's `run()`: a result value or a raised error,
abstracted to a `Nat` payload and a `String` message. -/
inductive RunOutcome
  | ok (v : Nat)
  | fail (msg : String)
  deriving DecidableEq, Repr

/-- Engine-visible per-task state: status, the result slot (the Runner's
return value or the captured failure) and the resource request (absent
until resolved from the Runner). -/
structure TaskState where
  status : TaskStatus
  result : Option RunOutcome
  resources : Option ResourceRequest
  deriving DecidableEq, Repr

/-- Modelled from the spec: the task graph of `rabix.runtime.jobs` /
`rabix.runtime.tasks` is not among the embedded sources.  Tasks are
identified by `Nat` ids; `preds t` lists the tasks that must finish
before `t`. -/
structure TaskGraph where
  nodes : List Nat
  preds : Nat → List Nat

inductive JobStatus
  | queued
  | running
  | finished
  | failed
  deriving DecidableEq, Repr

/-- Modelled from the spec: a Job owns a task graph, the task states, an
aggregate status, and the error message slot the SequentialEngine fills on
abort (kept structured as the failing task's id and captured result). -/
structure JobState where
  jobId : Nat
  graph : TaskGraph
  tasks : Nat → TaskState
  status : JobStatus
  errorMessage : Option (Nat × Option RunOutcome)

/-- Point update of a task-state map. -/
def setTask (ts : Nat → TaskState) (t : Nat) (v : TaskState) : Nat → TaskState :=
  fun u => if u = t then v else ts u

/-- Modelled from the spec: "a task is a member of the ready frontier iff
all its predecessor tasks have status FINISHED and the task itself has not
yet left WAITING". -/
def isReady (g : TaskGraph) (ts : Nat → TaskState) (t : Nat) : Bool :=
  (ts t).status == TaskStatus.waiting &&
    (g.preds t).all (fun p => (ts p).status == TaskStatus.finished)

/-- Modelled from the spec: `get_ready_tasks` returns the current ready
frontier (here in node order). -/
def getReadyTasks (g : TaskGraph) (ts : Nat → TaskState) : List Nat :=
  g.nodes.filter (isReady g ts)

/-- The per-job body of `Engine._update_jobs_check_ready`: a job with a
non-empty ready frontier is skipped (and contributes `has_ready = True`);
otherwise its status is recomputed as FAILED if any task is not FINISHED,
else FINISHED.  Returns the updated job and its `has_ready` contribution. -/
def updateJobCheckReady (j : JobState) : JobState × Bool :=
  if (getReadyTasks j.graph j.tasks).isEmpty then
    ({ j with status :=
        if j.graph.nodes.any (fun t => !((j.tasks t).status == TaskStatus.finished))
        then JobStatus.failed else JobStatus.finished }, false)
  else (j, true)

/-- `Engine._update_jobs_check_ready` over the whole job registry. -/
def updateJobsCheckReady (jobs : List JobState) : List JobState × Bool :=
  (jobs.map (fun j => (updateJobCheckReady j).1),
   jobs.any (fun j => (updateJobCheckReady j).2))

/-- Observable hook/dispatch events: `before_task`, the synchronous
execution of a task by the SequentialEngine, and `after_task`. -/
inductive Event
  | beforeTask (t : Nat)
  | runTask (t : Nat)
  | afterTask (t : Nat)
  deriving DecidableEq, Repr

/-- Traces in which every executed task is immediately preceded by its
`before_task` event and, when it succeeds, immediately followed by its
`after_task` event; a failed task ends the trace right after its run
event. -/
inductive Hooked : List Event → Prop
  | nil : Hooked []
  | ok (t : Nat) (rest : List Event) : Hooked rest →
      Hooked (Event.beforeTask t :: Event.runTask t :: Event.afterTask t :: rest)
  | fail (t : Nat) : Hooked [Event.beforeTask t, Event.runTask t]

/-- `SequentialEngine.run_task`: set RUNNING, run the Runner, record the
result with FINISHED, or capture the raised error with FAILED. -/
def seqRunTask (runner : Nat → RunOutcome) (ts : Nat → TaskState) (t : Nat) :
    Nat → TaskState :=
  match runner t with
  | RunOutcome.ok v =>
    setTask ts t { (ts t) with
      status := TaskStatus.finished,
      result := some (RunOutcome.ok v) }
  | RunOutcome.fail msg =>
    setTask ts t { (ts t) with
      status := TaskStatus.failed,
      result := some (RunOutcome.fail msg) }

/-- The inner `for task in ready` loop of `SequentialEngine._run_job`:
runs the snapshot batch in order, emitting hook events, and aborts at the
first FAILED task (the `raise JobError` path), returning that task's id. -/
def runBatch (runner : Nat → RunOutcome) :
    List Nat → (Nat → TaskState) → ((Nat → TaskState) × List Event × Option Nat)
  | [], ts => (ts, [], none)
  | t :: rest, ts =>
    let ts1 := seqRunTask runner ts t
    if (ts1 t).status == TaskStatus.failed then
      (ts1, [Event.beforeTask t, Event.runTask t], some t)
    else
      match runBatch runner rest ts1 with
      | (ts2, evs, r) =>
        (ts2, Event.beforeTask t :: Event.runTask t :: Event.afterTask t :: evs, r)

/-- The `while ready:` loop of `SequentialEngine._run_job`, with fuel for
the recursion; `resolve_task` is implicit because readiness is recomputed
from the task statuses. -/
def runJobAux (runner : Nat → RunOutcome) (g : TaskGraph) :
    Nat → (Nat → TaskState) → ((Nat → TaskState) × List Event × Option Nat)
  | 0, ts => (ts, [], none)
  | Nat.succ fuel, ts =>
    let ready := getReadyTasks g ts
    if ready.isEmpty then (ts, [], none)
    else
      match runBatch runner ready ts with
      | (ts1, evs, some tf) => (ts1, evs, some tf)
      | (ts1, evs, none) =>
        match runJobAux runner g fuel ts1 with
        | (ts2, evs2, r) => (ts2, evs ++ evs2, r)

/-- The per-job body of `SequentialEngine.run_all`: skip jobs not QUEUED;
otherwise run the job, ending FINISHED, or FAILED with the `JobError`
message derived from the failing task's id and captured result. -/
def seqRunJob (runner : Nat → RunOutcome) (fuel : Nat) (j : JobState) :
    JobState × List Event :=
  if j.status == JobStatus.queued then
    match runJobAux runner j.graph fuel j.tasks with
    | (ts, evs, some tf) =>
      ({ j with tasks := ts, status := JobStatus.failed,
                errorMessage := some (tf, (ts tf).result) }, evs)
    | (ts, evs, none) =>
      ({ j with tasks := ts, status := JobStatus.finished }, evs)
  else (j, [])

/-- The `MultiprocessingEngine` state: the job registry, the in-flight
`(job, task)` pairs (the async result handle is abstracted by the
completion oracle), the resource ledger, and the emitted hook events. -/
structure MPEngine where
  jobs : List JobState
  running : List (Nat × Nat)
  ledger : Ledger
  trace : List Event

/-- The resource request used at dispatch: `task.resources` when present,
otherwise the Runner's `get_requirements()` (the `reqOf` oracle). -/
def resolvedReq (reqOf : Nat → Nat → ResourceRequest) (j : JobState) (t : Nat) :
    ResourceRequest :=
  match (j.tasks t).resources with
  | some r => r
  | none => reqOf j.jobId t

/-- One candidate dispatch inside `MultiprocessingEngine._run_ready_tasks`:
fill in `task.resources` from the Runner's requirements when absent, try
to acquire resources, and on success fire `before_task`, mark the task
RUNNING and append it to the in-flight list; on rejection the task is left
ready (its resources stay filled, as in the source). -/
def dispatchOne (reqOf : Nat → Nat → ResourceRequest) (e : MPEngine)
    (j : JobState) (t : Nat) : MPEngine × JobState :=
  let res := resolvedReq reqOf j t
  let j1 := { j with tasks := setTask j.tasks t { (j.tasks t) with resources := some res } }
  match acquire_resources e.ledger res with
  | (false, _) => (e, j1)
  | (true, led) =>
    ({ e with
        ledger := led,
        trace := e.trace ++ [Event.beforeTask t],
        running := e.running ++ [(j.jobId, t)] },
     { j1 with
        tasks := setTask j1.tasks t
          { (j1.tasks t) with status := TaskStatus.running } })

/-- Dispatch pass over one job's ready-frontier snapshot. -/
def dispatchJob (reqOf : Nat → Nat → ResourceRequest) (e : MPEngine)
    (j : JobState) : MPEngine × JobState :=
  (getReadyTasks j.graph j.tasks).foldl
    (fun p t => dispatchOne reqOf p.1 p.2 t) (e, j)

/-- `MultiprocessingEngine._run_ready_tasks`: iterate the registry,
dispatching each job's ready frontier. -/
def dispatchReady (reqOf : Nat → Nat → ResourceRequest) (e : MPEngine) : MPEngine :=
  let r := e.jobs.foldl
    (fun (acc : MPEngine × List JobState) j =>
      match dispatchJob reqOf acc.1 j with
      | (e1, j1) => (e1, acc.2 ++ [j1])) (e, [])
  { r.1 with jobs := r.2 }

/-- Update one job in the registry by id. -/
def updateJobIn (jobs : List JobState) (jid : Nat) (f : JobState → JobState) :
    List JobState :=
  jobs.map (fun j => if j.jobId = jid then f j else j)

/-- `MultiprocessingEngine.process_result` for the in-flight pair
`(jid, t)`: classify the Runner outcome as FINISHED (value) or FAILED
(captured error), fire `after_task` in both cases, release the task's
recorded resources, and resolve the task (implicit here since readiness is
recomputed from statuses). -/
def processResult (runner : Nat → Nat → RunOutcome) (e : MPEngine)
    (h : Nat × Nat) : MPEngine :=
  match h with
  | (jid, t) =>
    match e.jobs.find? (fun j0 => j0.jobId == jid) with
    | none => e
    | some j =>
      let tNew := match runner jid t with
        | RunOutcome.ok v =>
          { (j.tasks t) with
            status := TaskStatus.finished,
            result := some (RunOutcome.ok v) }
        | RunOutcome.fail msg =>
          { (j.tasks t) with
            status := TaskStatus.failed,
            result := some (RunOutcome.fail msg) }
      let res := match (j.tasks t).resources with
        | some r => r
        | none => { cpu := 0, mem_mb := 0 }
      { e with
        jobs := updateJobIn e.jobs jid
          (fun j0 => { j0 with tasks := setTask j0.tasks t tNew }),
        ledger := release_resources e.ledger res,
        trace := e.trace ++ [Event.afterTask t] }

/-- One iteration of the `while True:` loop of
`MultiprocessingEngine.run_all` at polling round `k`: dispatch ready
tasks, poll the in-flight list against the completion oracle, process the
completed ones, remove them, recompute job statuses, and report whether
the loop should return (which the source only checks when this round
completed at least one task). -/
def mpIter (runner : Nat → Nat → RunOutcome) (reqOf : Nat → Nat → ResourceRequest)
    (sched : Nat → Nat × Nat → Bool) (k : Nat) (e : MPEngine) : MPEngine × Bool :=
  let e1 := dispatchReady reqOf e
  let completed := e1.running.filter (fun h => sched k h)
  if completed.isEmpty then (e1, false)
  else
    let e2 := completed.foldl (processResult runner) e1
    let e3 := { e2 with running := e2.running.filter (fun h => !(sched k h)) }
    match updateJobsCheckReady e3.jobs with
    | (jobs1, hasReady) =>
      let e4 := { e3 with jobs := jobs1 }
      (e4, e4.running.isEmpty && !hasReady)

/-- `MultiprocessingEngine.run_all`, with fuel bounding the number of loop
iterations: `some` is a return, `none` means the loop was still going when
the fuel ran out. -/
def mpRunAllAux (runner : Nat → Nat → RunOutcome)
    (reqOf : Nat → Nat → ResourceRequest) (sched : Nat → Nat × Nat → Bool) :
    Nat → Nat → MPEngine → Option MPEngine
  | 0, _, _ => none
  | Nat.succ fuel, k, e =>
    match mpIter runner reqOf sched k e with
    | (e1, true) => some e1
    | (e1, false) => mpRunAllAux runner reqOf sched fuel (k + 1) e1

/-- The engine right after `Engine.run(*jobs)` registered the given jobs:
nothing in flight, fresh ledger, no events. -/
def mkEngine (jobs : List JobState) (tc tr : Int) : MPEngine :=
  { jobs := jobs, running := [], ledger := Ledger.init tc tr, trace := [] }

/-- Status of task `t` of job `jid` in an engine state. -/
def taskStatusOf (e : MPEngine) (jid t : Nat) : Option TaskStatus :=
  (e.jobs.find? (fun j => j.jobId == jid)).map (fun j => (j.tasks t).status)

/-- Result slot of task `t` of job `jid` in an engine state. -/
def taskResultOf (e : MPEngine) (jid t : Nat) : Option (Option RunOutcome) :=
  (e.jobs.find? (fun j => j.jobId == jid)).map (fun j => (j.tasks t).result)

/-- Aggregate status of job `jid` in an engine state. -/
def jobStatusOf (e : MPEngine) (jid : Nat) : Option JobStatus :=
  (e.jobs.find? (fun j => j.jobId == jid)).map (fun j => j.status)

/-- A fresh, not-yet-dispatched task. -/
def freshTask : TaskState :=
  { status := TaskStatus.waiting, result := none, resources := none }

/-- A single independent task. -/
def soloGraph : TaskGraph := { nodes := [0], preds := fun _ => [] }

/-- A Runner oracle whose every task raises. -/
def failRunner : Nat → RunOutcome := fun _ => RunOutcome.fail "boom"

/-- A queued job with the single task `0`. -/
def failJob : JobState :=
  { jobId := 0, graph := soloGraph, tasks := fun _ => freshTask,
    status := JobStatus.queued, errorMessage := none }

/-- A two-task chain `0 → 1`. -/
def chainGraph : TaskGraph :=
  { nodes := [0, 1], preds := fun t => if t = 1 then [0] else [] }

/-- A job whose task `0` is RUNNING (in flight) while task `1` still waits
on it: its ready frontier is empty although the graph is not exhausted. -/
def midRunJob : JobState :=
  { jobId := 0, graph := chainGraph,
    tasks := fun t => if t = 0 then
        { status := TaskStatus.running, result := none, resources := none }
      else freshTask,
    status := JobStatus.running, errorMessage := none }

/-- A job whose single task already FINISHED. -/
def doneJob : JobState :=
  { jobId := 0, graph := soloGraph,
    tasks := fun _ =>
      { status := TaskStatus.finished, result := some (RunOutcome.ok 0),
        resources := none },
    status := JobStatus.running, errorMessage := none }

/-- Fan graph for the concurrent failure scenario: `1` depends on `0`,
`2` is independent of both. -/
def fanGraph : TaskGraph :=
  { nodes := [0, 1, 2], preds := fun t => if t = 1 then [0] else [] }

/-- The fan job, all tasks fresh. -/
def fanJob : JobState :=
  { jobId := 0, graph := fanGraph, tasks := fun _ => freshTask,
    status := JobStatus.running, errorMessage := none }

/-- Runner oracle for the fan scenario: task `0` raises, the others
succeed with their own id as result. -/
def fanRunner : Nat → Nat → RunOutcome := fun _ t =>
  if t = 0 then RunOutcome.fail "boom" else RunOutcome.ok t

/-- Requirements oracle: every task wants one core and 10 MB. -/
def fanReq : Nat → Nat → ResourceRequest := fun _ _ => ⟨1, 10⟩

/-- Completion oracle: task `0` completes in polling round 0, task `2` in
round 1. -/
def fanSched : Nat → Nat × Nat → Bool := fun k h =>
  (k == 0 && h == (0, 0)) || (k == 1 && h == (0, 2))

/-- The fan scenario engine on a 4-core, 100 MB machine. -/
def fanEngine : MPEngine := mkEngine [fanJob] 4 100

/-- A single-task job whose task is in flight, used to exercise
`process_result` at a concrete input. -/
def soloMpJob : JobState :=
  { jobId := 0, graph := soloGraph,
    tasks := fun _ =>
      { status := TaskStatus.running, result := none,
        resources := some ⟨1, 10⟩ },
    status := JobStatus.running, errorMessage := none }

/-- An engine with `soloMpJob` in flight. -/
def soloMpEngine : MPEngine :=
  { jobs := [soloMpJob], running := [(0, 0)], ledger := Ledger.init 4 100,
    trace := [] }

/-- Runner oracle over jobs whose every task raises. -/
def failRunner2 : Nat → Nat → RunOutcome := fun _ _ => RunOutcome.fail "boom"

theorem Ledger.ext' {a b : Ledger} (h1 : a.total_cpu = b.total_cpu)
    (h2 : a.total_ram = b.total_ram) (h3 : a.available_cpu = b.available_cpu)
    (h4 : a.available_ram = b.available_ram)
    (h5 : a.multi_cpu_lock = b.multi_cpu_lock) : a = b := by
  cases a
  cases b
  simp_all

/-- Elimination form for a successful acquisition: the guards that must
have passed and the exact shape of the updated ledger, split by whether
the request was `CPU_ALL`. -/
theorem acquire_resources_true {s : Ledger} {r : ResourceRequest} {s' : Ledger}
    (h : acquire_resources s r = (true, s')) :
    (r.mem_mb : Int) ≤ s.available_ram ∧
    ((r.cpu = CPU_ALL ∧ s.multi_cpu_lock = false ∧ s.available_cpu = s.total_cpu ∧
        s' = { s with available_ram := s.available_ram - (r.mem_mb : Int),
                      multi_cpu_lock := true }) ∨
      (r.cpu ≠ CPU_ALL ∧ r.cpu ≤ s.available_cpu ∧
        s' = { s with available_ram := s.available_ram - (r.mem_mb : Int),
                      available_cpu := s.available_cpu - r.cpu })) := by
  unfold acquire_resources at h
  split at h
  · exact absurd (congrArg Prod.fst h) (by simp)
  · split at h
    · exact absurd (congrArg Prod.fst h) (by simp)
    · split at h
      · exact absurd (congrArg Prod.fst h) (by simp)
      · rename_i h1 h2 h3
        split at h
        · rename_i hall
          refine ⟨by omega, Or.inl ⟨hall, ?_, ?_, ?_⟩⟩
          · by_contra hb
            exact h2 ⟨hall, Or.inl (by simpa using hb)⟩
          · by_contra hb
            exact h2 ⟨hall, Or.inr hb⟩
          · exact ((Prod.mk.injEq _ _ _ _).mp h).2.symm
        · rename_i hnall
          refine ⟨by omega, Or.inr ⟨hnall, by omega, ?_⟩⟩
          exact ((Prod.mk.injEq _ _ _ _).mp h).2.symm

/-- Claim C10: `acquire_resources` mutates nothing on rejection — all
three guard checks happen before any mutation, so a `False` return leaves
`available_cpu`, `available_ram` and the exclusive lock exactly as they
were. -/
theorem acquire_reject_atomic (s : Ledger) (r : ResourceRequest)
    (h : (acquire_resources s r).1 = false) :
    (acquire_resources s r).2 = s := by
  by_cases h1 : (r.mem_mb : Int) > s.available_ram
  · simp only [acquire_resources, if_pos h1]
  · by_cases h2 : r.cpu = CPU_ALL ∧ (s.multi_cpu_lock = true ∨ s.available_cpu ≠ s.total_cpu)
    · simp only [acquire_resources, if_neg h1, if_pos h2]
    · by_cases h3 : r.cpu > s.available_cpu
      · simp only [acquire_resources, if_neg h1, if_neg h2, if_pos h3]
      · exfalso
        by_cases h4 : r.cpu = CPU_ALL
        · simp [acquire_resources, if_neg h1, if_neg h2, if_neg h3, if_pos h4] at h
        · simp [acquire_resources, if_neg h1, if_neg h2, if_neg h3, if_neg h4] at h

/-- Witness for `acquire_reject_atomic`: a request of 200 MB against a
ledger holding 100 MB is rejected and the ledger is returned unchanged. -/
theorem acquire_reject_atomic_witness :
    (acquire_resources (Ledger.init 2 100) ⟨1, 200⟩).2 = Ledger.init 2 100 :=
  acquire_reject_atomic (Ledger.init 2 100) ⟨1, 200⟩ (by decide)

/-- Claim C2: on a ledger with a non-negative core count,
`acquire_resources` returns `False` exactly when the request's `mem_mb`
exceeds `available_ram`, or the request is `CPU_ALL` and the exclusive
lock is set or `available_cpu ≠ total_cpu`, or the request is not
`CPU_ALL` and its cpu count exceeds `available_cpu`; on acceptance it
deducts `mem_mb` from `available_ram` and either sets the exclusive lock
(`CPU_ALL`) or deducts the cpu count from `available_cpu`. -/
theorem acquire_resources_spec (s : Ledger) (res : ResourceRequest)
    (h : 0 ≤ s.available_cpu) :
    ((acquire_resources s res).1 = false ↔
      ((res.mem_mb : Int) > s.available_ram ∨
        (res.cpu = CPU_ALL ∧ (s.multi_cpu_lock = true ∨ s.available_cpu ≠ s.total_cpu)) ∨
        (res.cpu ≠ CPU_ALL ∧ res.cpu > s.available_cpu))) ∧
    ((acquire_resources s res).1 = true →
      (acquire_resources s res).2 =
        if res.cpu = CPU_ALL then
          { s with available_ram := s.available_ram - (res.mem_mb : Int),
                   multi_cpu_lock := true }
        else
          { s with available_ram := s.available_ram - (res.mem_mb : Int),
                   available_cpu := s.available_cpu - res.cpu }) := by
  by_cases h1 : (res.mem_mb : Int) > s.available_ram
  · simp only [acquire_resources, if_pos h1]
    refine ⟨iff_of_true (by simp) (Or.inl h1), fun hc => absurd hc (by simp)⟩
  · by_cases h2 : res.cpu = CPU_ALL ∧ (s.multi_cpu_lock = true ∨ s.available_cpu ≠ s.total_cpu)
    · simp only [acquire_resources, if_neg h1, if_pos h2]
      refine ⟨iff_of_true (by simp) (Or.inr (Or.inl h2)), fun hc => absurd hc (by simp)⟩
    · by_cases h3 : res.cpu > s.available_cpu
      · simp only [acquire_resources, if_neg h1, if_neg h2, if_pos h3]
        have hnall : res.cpu ≠ CPU_ALL := by
          intro hall
          rw [hall] at h3
          unfold CPU_ALL at h3
          omega
        refine ⟨iff_of_true (by simp) (Or.inr (Or.inr ⟨hnall, h3⟩)),
          fun hc => absurd hc (by simp)⟩
      · have hd : ¬((res.mem_mb : Int) > s.available_ram ∨
            (res.cpu = CPU_ALL ∧ (s.multi_cpu_lock = true ∨ s.available_cpu ≠ s.total_cpu)) ∨
            (res.cpu ≠ CPU_ALL ∧ res.cpu > s.available_cpu)) := by
          rintro (hc | hc | ⟨hn, hc⟩)
          · exact h1 hc
          · exact h2 hc
          · exact h3 hc
        by_cases h4 : res.cpu = CPU_ALL
        · simp only [acquire_resources, if_neg h1, if_neg h2, if_neg h3, if_pos h4]
          exact ⟨iff_of_false (by simp) hd, fun _ => by simp⟩
        · simp only [acquire_resources, if_neg h1, if_neg h2, if_neg h3, if_neg h4]
          exact ⟨iff_of_false (by simp) hd, fun _ => by simp⟩

/-- Witness for `acquire_resources_spec`: with two free cores and 100 MB
free, a request of 200 MB is rejected. -/
theorem acquire_resources_spec_witness :
    (acquire_resources (Ledger.init 2 100) ⟨1, 200⟩).1 = false :=
  (acquire_resources_spec (Ledger.init 2 100) ⟨1, 200⟩ (by decide)).1.mpr
    (Or.inl (by decide))

theorem heldCpu_cons (r : ResourceRequest) (l : List ResourceRequest) :
    heldCpu (r :: l) = (if r.cpu = CPU_ALL then 0 else r.cpu) + heldCpu l := by
  simp [heldCpu]

theorem heldRam_cons (r : ResourceRequest) (l : List ResourceRequest) :
    heldRam (r :: l) = (r.mem_mb : Int) + heldRam l := by
  simp [heldRam]

theorem heldCpu_erase {r : ResourceRequest} {l : List ResourceRequest} (h : r ∈ l) :
    heldCpu l = (if r.cpu = CPU_ALL then 0 else r.cpu) + heldCpu (l.erase r) := by
  have hp := List.perm_cons_erase h
  have : heldCpu l = heldCpu (r :: l.erase r) := by
    unfold heldCpu
    exact List.Perm.sum_eq (hp.map _)
  rw [this, heldCpu_cons]

theorem heldRam_erase {r : ResourceRequest} {l : List ResourceRequest} (h : r ∈ l) :
    heldRam l = (r.mem_mb : Int) + heldRam (l.erase r) := by
  have hp := List.perm_cons_erase h
  have : heldRam l = heldRam (r :: l.erase r) := by
    unfold heldRam
    exact List.Perm.sum_eq (hp.map _)
  rw [this, heldRam_cons]

theorem heldCpu_nonneg {l : List ResourceRequest} (h : ∀ r ∈ l, r.wf) :
    0 ≤ heldCpu l := by
  induction l with
  | nil => simp [heldCpu]
  | cons r t ih =>
    rw [heldCpu_cons]
    have hr := h r (by simp)
    have ht := ih (fun x hx => h x (by simp [hx]))
    rcases hr with h1 | h1
    · simp only [h1, if_pos]
      omega
    · by_cases hc : r.cpu = CPU_ALL
      · simp only [hc, if_pos]
        omega
      · simp only [hc, if_neg, ite_false]
        omega

theorem heldRam_nonneg (l : List ResourceRequest) : 0 ≤ heldRam l := by
  induction l with
  | nil => simp [heldRam]
  | cons r t ih =>
    rw [heldRam_cons]
    have : (0 : Int) ≤ (r.mem_mb : Int) := Int.ofNat_nonneg _
    omega

theorem reach_wf {tc tr : Int} {s : Ledger} {held : List ResourceRequest}
    (h : Reach tc tr s held) : ∀ r ∈ held, r.wf := by
  induction h with
  | start => simp
  | acq _ hwf _ ih =>
    intro x hx
    rcases List.mem_cons.mp hx with h1 | h1
    · rw [h1]; exact hwf
    · exact ih _ h1
  | rel _ hmem ih =>
    intro x hx
    exact ih _ (List.mem_of_mem_erase hx)

/-- Claim C3: along every acquire/release sequence in which each release
matches a prior successful acquisition, `available_cpu` plus the cores
held by admitted non-exclusive requests equals `total_cpu`, and
`available_ram` plus the held RAM equals `total_ram`; both ledger values
stay within `[0, total]`.  Moreover `release_resources` restores exactly
what the matching `acquire_resources` deducted: releasing right after a
successful acquisition returns the ledger to its previous value. -/
theorem ledger_conservation :
    (∀ tc tr : Int, 0 ≤ tc → 0 ≤ tr →
      ∀ (s : Ledger) (held : List ResourceRequest), Reach tc tr s held →
        s.total_cpu = tc ∧ s.total_ram = tr ∧
        s.available_cpu + heldCpu held = tc ∧
        s.available_ram + heldRam held = tr ∧
        0 ≤ s.available_cpu ∧ s.available_cpu ≤ tc ∧
        0 ≤ s.available_ram ∧ s.available_ram ≤ tr) ∧
    (∀ (s : Ledger) (r : ResourceRequest) (s' : Ledger),
      acquire_resources s r = (true, s') → release_resources s' r = s) := by
  constructor
  · intro tc tr htc htr s held h
    induction h with
    | start =>
      simp [Ledger.init, heldCpu, heldRam]
      omega
    | acq hre hwf hacq ih =>
      rename_i s0 held0 r s'
      obtain ⟨htot_c, htot_r, hc, hr, hc0, hc1, hr0, hr1⟩ := ih
      obtain ⟨hmem, hcase⟩ := acquire_resources_true hacq
      rcases hcase with ⟨hall, hlock, havail, hs'⟩ | ⟨hnall, hcpu, hs'⟩
      · subst hs'
        rw [heldCpu_cons, heldRam_cons]
        simp only [hall, if_pos]
        refine ⟨htot_c, htot_r, by omega, by omega, by omega, by omega, by omega, by omega⟩
      · subst hs'
        rw [heldCpu_cons, heldRam_cons]
        simp only [hnall, ite_false, if_neg]
        have hpos : 0 < r.cpu := by
          rcases hwf with h1 | h1
          · exact absurd h1 hnall
          · exact h1
        refine ⟨htot_c, htot_r, by omega, by omega, by omega, by omega, by omega, by omega⟩
    | rel hre hmem ih =>
      rename_i s0 held0 r
      obtain ⟨htot_c, htot_r, hc, hr, hc0, hc1, hr0, hr1⟩ := ih
      have hwf_all := reach_wf hre
      have hwf_erase : ∀ x ∈ held0.erase r, x.wf := fun x hx =>
        hwf_all x (List.mem_of_mem_erase hx)
      have hcE := heldCpu_erase hmem
      have hrE := heldRam_erase hmem
      have hcnn := heldCpu_nonneg hwf_erase
      have hrnn := heldRam_nonneg (held0.erase r)
      by_cases hall : r.cpu = CPU_ALL
      · simp only [release_resources, hall, if_pos]
        rw [hall] at hcE
        simp only [if_pos] at hcE
        refine ⟨htot_c, htot_r, by omega, by omega, by omega, by omega, by omega, by omega⟩
      · simp only [release_resources, hall, ite_false, if_neg]
        simp only [hall, ite_false, if_neg] at hcE
        have hpos : 0 < r.cpu := by
          rcases hwf_all r hmem with h1 | h1
          · exact absurd h1 hall
          · exact h1
        refine ⟨htot_c, htot_r, by omega, by omega, by omega, by omega, by omega, by omega⟩
  · intro s r s' h
    obtain ⟨hmem, hcase⟩ := acquire_resources_true h
    rcases hcase with ⟨hall, hlock, havail, hs'⟩ | ⟨hnall, hcpu, hs'⟩
    · subst hs'
      unfold release_resources
      rw [if_pos hall]
      apply Ledger.ext'
      · rfl
      · rfl
      · rfl
      · show s.available_ram - (r.mem_mb : Int) + (r.mem_mb : Int) = s.available_ram
        omega
      · exact hlock.symm
    · subst hs'
      unfold release_resources
      rw [if_neg hnall]
      apply Ledger.ext'
      · rfl
      · rfl
      · show s.available_cpu - r.cpu + r.cpu = s.available_cpu
        omega
      · show s.available_ram - (r.mem_mb : Int) + (r.mem_mb : Int) = s.available_ram
        omega
      · rfl

/-- Witness for `ledger_conservation`: after admitting a 1-cpu/10 MB task
on a 2-cpu/100 MB machine the ledger reads one core and 90 MB available,
and its core count plus the held core equals the total. -/
theorem ledger_conservation_witness :
    (⟨2, 100, 1, 90, false⟩ : Ledger).available_cpu +
      heldCpu [⟨1, 10⟩] = 2 :=
  (ledger_conservation.1 2 100 (by decide) (by decide) _ _
    (Reach.acq Reach.start (Or.inr (by decide)) (by decide))).2.2.1

/-- Claim C1 (refuted by the code): admitting a `CPU_ALL` task sets the
exclusive lock but leaves `available_cpu` at `total_cpu`, and the lock is
only consulted for other `CPU_ALL` requests — so with the lock set a
subsequent 1-cpu request is still admitted, and a state holding a
`CPU_ALL` task concurrently with another admitted task is reachable under
the admission/release protocol. -/
theorem exclusive_lock_not_enforced :
    acquire_resources (Ledger.init 2 100) ⟨CPU_ALL, 50⟩ =
      (true, (⟨2, 100, 2, 50, true⟩ : Ledger)) ∧
    acquire_resources (⟨2, 100, 2, 50, true⟩ : Ledger) ⟨1, 10⟩ =
      (true, (⟨2, 100, 1, 40, true⟩ : Ledger)) ∧
    Reach 2 100 (⟨2, 100, 1, 40, true⟩ : Ledger)
      [(⟨1, 10⟩ : ResourceRequest), (⟨CPU_ALL, 50⟩ : ResourceRequest)] := by
  refine ⟨by decide, by decide, ?_⟩
  have h1 : Reach 2 100 (⟨2, 100, 2, 50, true⟩ : Ledger)
      [(⟨CPU_ALL, 50⟩ : ResourceRequest)] :=
    Reach.acq Reach.start (Or.inl rfl) (by decide)
  exact Reach.acq h1 (Or.inr (by decide)) (by decide)

/-- Claim C6 (refuted by the code): `_update_jobs_check_ready` only looks
at the ready frontier, not at RUNNING tasks — a job whose task 0 is in
flight and whose task 1 waits on it has an empty frontier and is assigned
the terminal status FAILED although the graph is not exhausted. -/
theorem terminal_status_assigned_while_running :
    (updateJobCheckReady midRunJob).1.status = JobStatus.failed ∧
    (midRunJob.tasks 0).status = TaskStatus.running := by
  exact ⟨by decide, by decide⟩

/-- Claim C6 (amended): when the aggregate status is recomputed, a job
with a non-empty ready frontier is left unchanged; a job with an empty
frontier — regardless of tasks still RUNNING — is set to FINISHED iff
every task in its graph is FINISHED and to FAILED iff some task is not
FINISHED, and never both. -/
theorem update_job_status_correct (j : JobState) :
    ((getReadyTasks j.graph j.tasks).isEmpty = false → (updateJobCheckReady j).1 = j) ∧
    ((getReadyTasks j.graph j.tasks).isEmpty = true →
      (((updateJobCheckReady j).1.status = JobStatus.finished ↔
          ∀ t ∈ j.graph.nodes, (j.tasks t).status = TaskStatus.finished) ∧
        ((updateJobCheckReady j).1.status = JobStatus.failed ↔
          ∃ t ∈ j.graph.nodes, (j.tasks t).status ≠ TaskStatus.finished) ∧
        ¬((updateJobCheckReady j).1.status = JobStatus.finished ∧
          (updateJobCheckReady j).1.status = JobStatus.failed))) := by
  by_cases hr : (getReadyTasks j.graph j.tasks).isEmpty = true
  · constructor
    · intro hc
      rw [hr] at hc
      cases hc
    · intro _
      simp only [updateJobCheckReady, if_pos hr]
      by_cases hf : j.graph.nodes.any
          (fun t => !((j.tasks t).status == TaskStatus.finished)) = true
      · simp only [if_pos hf]
        have hex : ∃ t ∈ j.graph.nodes, (j.tasks t).status ≠ TaskStatus.finished := by
          obtain ⟨t, ht, hp⟩ := List.any_eq_true.mp hf
          refine ⟨t, ht, ?_⟩
          simpa using hp
        refine ⟨iff_of_false (by simp) ?_, iff_of_true (by trivial) hex, by simp⟩
        intro hall
        obtain ⟨t, ht, hne⟩ := hex
        exact hne (hall t ht)
      · simp only [if_neg hf]
        have hall : ∀ t ∈ j.graph.nodes, (j.tasks t).status = TaskStatus.finished := by
          intro t ht
          by_contra hne
          exact hf (List.any_eq_true.mpr ⟨t, ht, by simpa using hne⟩)
        refine ⟨iff_of_true (by trivial) hall, iff_of_false (by simp) ?_, by simp⟩
        rintro ⟨t, ht, hne⟩
        exact hne (hall t ht)
  · constructor
    · intro _
      simp only [updateJobCheckReady, if_neg hr]
    · intro hc
      exact absurd hc hr

/-- Witness for `update_job_status_correct`: a job whose single task has
FINISHED (hence empty frontier) is recomputed to FINISHED. -/
theorem update_job_status_correct_witness :
    (updateJobCheckReady doneJob).1.status = JobStatus.finished :=
  ((update_job_status_correct doneJob).2 (by decide)).1.mpr (by decide)

theorem setTask_self (ts : Nat → TaskState) (t : Nat) (v : TaskState) :
    setTask ts t v t = v := by
  simp [setTask]

theorem setTask_ne {ts : Nat → TaskState} {t u : Nat} (v : TaskState) (h : u ≠ t) :
    setTask ts t v u = ts u := by
  simp [setTask, h]

theorem seqRunTask_ne {runner : Nat → RunOutcome} {ts : Nat → TaskState}
    {t u : Nat} (h : u ≠ t) : seqRunTask runner ts t u = ts u := by
  unfold seqRunTask
  cases runner t
  · exact setTask_ne _ h
  · exact setTask_ne _ h

theorem seqRunTask_fail {runner : Nat → RunOutcome} {ts : Nat → TaskState}
    {t : Nat} {msg : String} (h : runner t = RunOutcome.fail msg) :
    seqRunTask runner ts t t =
      { (ts t) with
        status := TaskStatus.failed,
        result := some (RunOutcome.fail msg) } := by
  unfold seqRunTask
  rw [h]
  exact setTask_self _ _ _

/-- When a batch run reports a failing task, its event trace ends exactly
at that task's run event. -/
theorem runBatch_fail_trace {runner : Nat → RunOutcome} :
    ∀ {batch : List Nat} {ts ts' : Nat → TaskState} {evs : List Event} {tf : Nat},
      runBatch runner batch ts = (ts', evs, some tf) →
      ∃ pre, evs = pre ++ [Event.beforeTask tf, Event.runTask tf] := by
  intro batch
  induction batch with
  | nil =>
    intro ts ts' evs tf h
    simp [runBatch] at h
  | cons t rest ih =>
    intro ts ts' evs tf h
    simp only [runBatch] at h
    split at h
    · simp only [Prod.mk.injEq, Option.some.injEq] at h
      obtain ⟨h1, h2, h3⟩ := h
      subst h3
      exact ⟨[], by rw [← h2]; rfl⟩
    · rcases hB : runBatch runner rest (seqRunTask runner ts t) with ⟨ts2, evs2, r2⟩
      rw [hB] at h
      simp only [Prod.mk.injEq] at h
      obtain ⟨h1, h2, h3⟩ := h
      subst h3
      obtain ⟨pre, hp⟩ := ih hB
      refine ⟨Event.beforeTask t :: Event.runTask t :: Event.afterTask t :: pre, ?_⟩
      rw [← h2, hp]
      rfl

/-- A batch run leaves every task with no run event in its trace
untouched. -/
theorem runBatch_preserves_unrun {runner : Nat → RunOutcome} :
    ∀ {batch : List Nat} {ts ts' : Nat → TaskState} {evs : List Event} {r : Option Nat},
      runBatch runner batch ts = (ts', evs, r) →
      ∀ u, Event.runTask u ∉ evs → ts' u = ts u := by
  intro batch
  induction batch with
  | nil =>
    intro ts ts' evs r h u _
    simp only [runBatch, Prod.mk.injEq] at h
    rw [← h.1]
  | cons t rest ih =>
    intro ts ts' evs r h u hu
    simp only [runBatch] at h
    split at h
    · simp only [Prod.mk.injEq] at h
      obtain ⟨h1, h2, h3⟩ := h
      rw [← h2] at hu
      have hne : u ≠ t := by
        intro he
        exact hu (by simp [he])
      rw [← h1]
      exact seqRunTask_ne hne
    · rcases hB : runBatch runner rest (seqRunTask runner ts t) with ⟨ts2, evs2, r2⟩
      rw [hB] at h
      simp only [Prod.mk.injEq] at h
      obtain ⟨h1, h2, h3⟩ := h
      rw [← h2] at hu
      have hne : u ≠ t := by
        intro he
        exact hu (by simp [he])
      have hu2 : Event.runTask u ∉ evs2 := by
        intro hm
        exact hu (by simp [hm])
      rw [← h1, ih hB u hu2]
      exact seqRunTask_ne hne

/-- When the `_run_job` loop reports a failing task, its whole event trace
ends exactly at that task's run event. -/
theorem runJobAux_fail_trace {runner : Nat → RunOutcome} {g : TaskGraph} :
    ∀ {fuel : Nat} {ts ts' : Nat → TaskState} {evs : List Event} {tf : Nat},
      runJobAux runner g fuel ts = (ts', evs, some tf) →
      ∃ pre, evs = pre ++ [Event.beforeTask tf, Event.runTask tf] := by
  intro fuel
  induction fuel with
  | zero =>
    intro ts ts' evs tf h
    simp [runJobAux] at h
  | succ n ih =>
    intro ts ts' evs tf h
    simp only [runJobAux] at h
    split at h
    · simp at h
    · split at h
      · rename_i ts1 evs1 t1 hB
        simp only [Prod.mk.injEq, Option.some.injEq] at h
        obtain ⟨h1, h2, h3⟩ := h
        subst h3
        obtain ⟨pre, hp⟩ := runBatch_fail_trace hB
        exact ⟨pre, by rw [← h2, hp]⟩
      · rename_i ts1 evs1 hB
        rcases hA : runJobAux runner g n ts1 with ⟨ts2, evs2, r2⟩
        rw [hA] at h
        simp only [Prod.mk.injEq] at h
        obtain ⟨h1, h2, h3⟩ := h
        subst h3
        obtain ⟨pre, hp⟩ := ih hA
        refine ⟨evs1 ++ pre, ?_⟩
        rw [← h2, hp, List.append_assoc]

/-- The `_run_job` loop leaves every task with no run event in its trace
untouched. -/
theorem runJobAux_preserves_unrun {runner : Nat → RunOutcome} {g : TaskGraph} :
    ∀ {fuel : Nat} {ts ts' : Nat → TaskState} {evs : List Event} {r : Option Nat},
      runJobAux runner g fuel ts = (ts', evs, r) →
      ∀ u, Event.runTask u ∉ evs → ts' u = ts u := by
  intro fuel
  induction fuel with
  | zero =>
    intro ts ts' evs r h u _
    simp only [runJobAux, Prod.mk.injEq] at h
    rw [← h.1]
  | succ n ih =>
    intro ts ts' evs r h u hu
    simp only [runJobAux] at h
    split at h
    · simp only [Prod.mk.injEq] at h
      rw [← h.1]
    · split at h
      · rename_i ts1 evs1 t1 hB
        simp only [Prod.mk.injEq] at h
        obtain ⟨h1, h2, h3⟩ := h
        rw [← h2] at hu
        rw [← h1]
        exact runBatch_preserves_unrun hB u hu
      · rename_i ts1 evs1 hB
        rcases hA : runJobAux runner g n ts1 with ⟨ts2, evs2, r2⟩
        rw [hA] at h
        simp only [Prod.mk.injEq] at h
        obtain ⟨h1, h2, h3⟩ := h
        rw [← h2] at hu
        have hu1 : Event.runTask u ∉ evs1 := by
          intro hm
          exact hu (by simp [hm])
        have hu2 : Event.runTask u ∉ evs2 := by
          intro hm
          exact hu (by simp [hm])
        rw [← h1, ih hA u hu2]
        exact runBatch_preserves_unrun hB u hu1

/-- Every batch trace is properly hook-bracketed. -/
theorem runBatch_hooked {runner : Nat → RunOutcome} :
    ∀ {batch : List Nat} {ts ts' : Nat → TaskState} {evs : List Event} {r : Option Nat},
      runBatch runner batch ts = (ts', evs, r) → Hooked evs := by
  intro batch
  induction batch with
  | nil =>
    intro ts ts' evs r h
    simp only [runBatch, Prod.mk.injEq] at h
    rw [← h.2.1]
    exact Hooked.nil
  | cons t rest ih =>
    intro ts ts' evs r h
    simp only [runBatch] at h
    split at h
    · simp only [Prod.mk.injEq] at h
      rw [← h.2.1]
      exact Hooked.fail t
    · rcases hB : runBatch runner rest (seqRunTask runner ts t) with ⟨ts2, evs2, r2⟩
      rw [hB] at h
      simp only [Prod.mk.injEq] at h
      rw [← h.2.1]
      exact Hooked.ok t evs2 (ih hB)

/-- A batch trace that ends without a failure can be extended on the right
by any hook-bracketed trace. -/
theorem runBatch_none_hooked_append {runner : Nat → RunOutcome} :
    ∀ {batch : List Nat} {ts ts' : Nat → TaskState} {evs : List Event},
      runBatch runner batch ts = (ts', evs, none) →
      ∀ l, Hooked l → Hooked (evs ++ l) := by
  intro batch
  induction batch with
  | nil =>
    intro ts ts' evs h l hl
    simp only [runBatch, Prod.mk.injEq] at h
    rw [← h.2.1]
    exact hl
  | cons t rest ih =>
    intro ts ts' evs h l hl
    simp only [runBatch] at h
    split at h
    · simp at h
    · rcases hB : runBatch runner rest (seqRunTask runner ts t) with ⟨ts2, evs2, r2⟩
      rw [hB] at h
      simp only [Prod.mk.injEq] at h
      obtain ⟨h1, h2, h3⟩ := h
      subst h3
      rw [← h2]
      exact Hooked.ok t (evs2 ++ l) (ih hB l hl)

/-- Every `_run_job` trace is properly hook-bracketed. -/
theorem runJobAux_hooked {runner : Nat → RunOutcome} {g : TaskGraph} :
    ∀ {fuel : Nat} {ts ts' : Nat → TaskState} {evs : List Event} {r : Option Nat},
      runJobAux runner g fuel ts = (ts', evs, r) → Hooked evs := by
  intro fuel
  induction fuel with
  | zero =>
    intro ts ts' evs r h
    simp only [runJobAux, Prod.mk.injEq] at h
    rw [← h.2.1]
    exact Hooked.nil
  | succ n ih =>
    intro ts ts' evs r h
    simp only [runJobAux] at h
    split at h
    · simp only [Prod.mk.injEq] at h
      rw [← h.2.1]
      exact Hooked.nil
    · split at h
      · rename_i ts1 evs1 t1 hB
        simp only [Prod.mk.injEq] at h
        rw [← h.2.1]
        exact runBatch_hooked hB
      · rename_i ts1 evs1 hB
        rcases hA : runJobAux runner g n ts1 with ⟨ts2, evs2, r2⟩
        rw [hA] at h
        simp only [Prod.mk.injEq] at h
        rw [← h.2.1]
        exact runBatch_none_hooked_append hB evs2 (ih hA)

/-- Claim C4: in the SequentialEngine, when a task's Runner run fails the
job aborts immediately: the event trace ends exactly at the failing task's
run event (so no remaining ready task of that batch and no
not-yet-reached task is executed — every task with no run event keeps its
pre-run state), the job's status is set to FAILED, and its error message
carries the failing task's id and captured result. -/
theorem seq_fail_fast (runner : Nat → RunOutcome) (fuel : Nat) (j : JobState)
    (tf : Nat) (hq : j.status = JobStatus.queued)
    (h : (runJobAux runner j.graph fuel j.tasks).2.2 = some tf) :
    (seqRunJob runner fuel j).1.status = JobStatus.failed ∧
    (seqRunJob runner fuel j).1.errorMessage =
      some (tf, ((seqRunJob runner fuel j).1.tasks tf).result) ∧
    (∃ pre, (seqRunJob runner fuel j).2 =
      pre ++ [Event.beforeTask tf, Event.runTask tf]) ∧
    (∀ u, Event.runTask u ∉ (seqRunJob runner fuel j).2 →
      (seqRunJob runner fuel j).1.tasks u = j.tasks u) := by
  rcases hE : runJobAux runner j.graph fuel j.tasks with ⟨ts1, evs1, r1⟩
  have hr : r1 = some tf := by
    rw [hE] at h
    exact h
  subst hr
  have hJ : seqRunJob runner fuel j =
      ({ j with tasks := ts1, status := JobStatus.failed,
                errorMessage := some (tf, (ts1 tf).result) }, evs1) := by
    simp [seqRunJob, hq, hE]
  rw [hJ]
  refine ⟨rfl, rfl, ?_, ?_⟩
  · exact runJobAux_fail_trace hE
  · intro u hu
    exact runJobAux_preserves_unrun hE u hu

/-- Witness for `seq_fail_fast`: running the single-task job whose Runner
raises ends the job FAILED. -/
theorem seq_fail_fast_witness :
    (seqRunJob failRunner 1 failJob).1.status = JobStatus.failed :=
  (seq_fail_fast failRunner 1 failJob 0 rfl (by decide)).1

/-- Claim C5 (refuted by the code): in the SequentialEngine a FAILED task
aborts the job via `raise JobError` before `after_task` is reached — task
0 of this single-task job completes FAILED, yet no `afterTask 0` event is
in the trace, contradicting that `after_task` is invoked after completion
in the failure case for every task of either engine. -/
theorem after_hook_skipped_on_seq_failure :
    (seqRunJob failRunner 1 failJob).2 = [Event.beforeTask 0, Event.runTask 0] ∧
    ((seqRunJob failRunner 1 failJob).1.tasks 0).status = TaskStatus.failed ∧
    Event.afterTask 0 ∉ (seqRunJob failRunner 1 failJob).2 := by
  refine ⟨by decide, by decide, by decide⟩

/-- Updating a job by id commutes with looking it up, provided the update
preserves the id. -/
theorem find_updateJobIn (f : JobState → JobState)
    {jobs : List JobState} {jid : Nat} {j : JobState}
    (hf : ∀ x, (f x).jobId = x.jobId)
    (h : jobs.find? (fun j0 => j0.jobId == jid) = some j) :
    (updateJobIn jobs jid f).find? (fun j0 => j0.jobId == jid) = some (f j) := by
  induction jobs with
  | nil => simp at h
  | cons a rest ih =>
    by_cases ha : a.jobId = jid
    · rw [List.find?_cons_of_pos _ (by simp [ha])] at h
      have hj : a = j := by
        injection h
      subst hj
      unfold updateJobIn
      simp only [List.map_cons, if_pos ha]
      rw [List.find?_cons_of_pos _ (by simp [hf a, ha])]
    · rw [List.find?_cons_of_neg _ (by simp [ha])] at h
      unfold updateJobIn at ih ⊢
      simp only [List.map_cons, if_neg ha]
      rw [List.find?_cons_of_neg _ (by simp [ha])]
      exact ih h

/-- Claim C5 (amended): `before_task` is invoked immediately before every
task execution/dispatch in both engines, and `after_task` immediately
after completion in both the success and the failure case in the
MultiprocessingEngine — but in the SequentialEngine only on success: a
sequential trace is hook-bracketed with a failed task ending the trace
right after its run event, `process_result` appends `afterTask` whatever
the outcome, and a dispatch appends `beforeTask` exactly when it admits
the task. -/
theorem hooks_invocation :
    (∀ (runner : Nat → RunOutcome) (g : TaskGraph) (fuel : Nat)
        (ts ts' : Nat → TaskState) (evs : List Event) (r : Option Nat),
      runJobAux runner g fuel ts = (ts', evs, r) → Hooked evs) ∧
    (∀ (runner : Nat → Nat → RunOutcome) (e : MPEngine) (jid t : Nat) (j : JobState),
      e.jobs.find? (fun j0 => j0.jobId == jid) = some j →
      (processResult runner e (jid, t)).trace = e.trace ++ [Event.afterTask t]) ∧
    (∀ (reqOf : Nat → Nat → ResourceRequest) (e : MPEngine) (j : JobState) (t : Nat),
      ((dispatchOne reqOf e j t).1.trace = e.trace ++ [Event.beforeTask t] ∧
        (dispatchOne reqOf e j t).1.running = e.running ++ [(j.jobId, t)]) ∨
      ((dispatchOne reqOf e j t).1.trace = e.trace ∧
        (dispatchOne reqOf e j t).1.running = e.running)) := by
  refine ⟨?_, ?_, ?_⟩
  · intro runner g fuel ts ts' evs r h
    exact runJobAux_hooked h
  · intro runner e jid t j hfind
    simp only [processResult, hfind]
  · intro reqOf e j t
    rcases hA : acquire_resources e.ledger (resolvedReq reqOf j t) with ⟨ok, led⟩
    cases ok
    · right
      constructor
      · simp only [dispatchOne, hA]
      · simp only [dispatchOne, hA]
    · left
      constructor
      · simp only [dispatchOne, hA]
      · simp only [dispatchOne, hA]

/-- Witness for `hooks_invocation`: processing the in-flight task of the
solo engine appends its `afterTask` event. -/
theorem hooks_invocation_witness :
    (processResult failRunner2 soloMpEngine (0, 0)).trace =
      soloMpEngine.trace ++ [Event.afterTask 0] :=
  hooks_invocation.2.1 failRunner2 soloMpEngine 0 0 soloMpJob rfl

/-- Claim C8: a Runner error never escapes the engines as an exception:
the SequentialEngine's `run_task` captures it, leaving the task FAILED
with the error in its result slot, and the MultiprocessingEngine's
`process_result` does the same for an asynchronous failure. -/
theorem errors_captured :
    (∀ (runner : Nat → RunOutcome) (ts : Nat → TaskState) (t : Nat) (msg : String),
      runner t = RunOutcome.fail msg →
      (seqRunTask runner ts t t).status = TaskStatus.failed ∧
      (seqRunTask runner ts t t).result = some (RunOutcome.fail msg)) ∧
    (∀ (runner : Nat → Nat → RunOutcome) (e : MPEngine) (jid t : Nat)
        (j : JobState) (msg : String),
      e.jobs.find? (fun j0 => j0.jobId == jid) = some j →
      runner jid t = RunOutcome.fail msg →
      taskStatusOf (processResult runner e (jid, t)) jid t = some TaskStatus.failed ∧
      taskResultOf (processResult runner e (jid, t)) jid t =
        some (some (RunOutcome.fail msg))) := by
  constructor
  · intro runner ts t msg hfail
    rw [seqRunTask_fail hfail]
    exact ⟨rfl, rfl⟩
  · intro runner e jid t j msg hfind hfail
    have hfd := find_updateJobIn
      (fun j0 => { j0 with
        tasks := setTask j0.tasks t { (j.tasks t) with
          status := TaskStatus.failed,
          result := some (RunOutcome.fail msg) } })
      (fun x => rfl) hfind
    constructor
    · simp only [processResult, hfind, hfail, taskStatusOf]
      rw [hfd]
      simp [setTask_self]
    · simp only [processResult, hfind, hfail, taskResultOf]
      rw [hfd]
      simp [setTask_self]

/-- Witness for `errors_captured`: processing the failing in-flight task
of the solo engine leaves it FAILED. -/
theorem errors_captured_witness :
    taskStatusOf (processResult failRunner2 soloMpEngine (0, 0)) 0 0 =
      some TaskStatus.failed :=
  (errors_captured.2 failRunner2 soloMpEngine 0 0 soloMpJob "boom" rfl rfl).1

/-- Claim C7 (refuted by the code): the exit check of
`MultiprocessingEngine.run_all` sits inside the `if to_remove:` branch, so
it is only reachable after a polling round that completed at least one
task — a run with zero jobs (no in-flight task, no ready frontier) never
returns: for every amount of fuel the loop is still going. -/
theorem mp_run_all_zero_jobs_diverges (runner : Nat → Nat → RunOutcome)
    (reqOf : Nat → Nat → ResourceRequest) (sched : Nat → Nat × Nat → Bool)
    (tc tr : Int) :
    ∀ (fuel k : Nat),
      mpRunAllAux runner reqOf sched fuel k (mkEngine [] tc tr) = none := by
  intro fuel
  induction fuel with
  | zero =>
    intro k
    rfl
  | succ n ih =>
    intro k
    have hstep : mpIter runner reqOf sched k (mkEngine [] tc tr) =
        (mkEngine [] tc tr, false) := rfl
    simp only [mpRunAllAux, hstep]
    exact ih (k + 1)

/-- Claim C9 (refuted by the code): after the first polling round of the
fan scenario, task 0 has FAILED while the independent task 2 is still
RUNNING and in flight, yet `_update_jobs_check_ready` — seeing an empty
frontier and ignoring in-flight tasks — has already marked the job
FAILED, although the graph is not exhausted. -/
theorem job_failed_while_sibling_running :
    jobStatusOf (mpIter fanRunner fanReq fanSched 0 fanEngine).1 0 =
      some JobStatus.failed ∧
    taskStatusOf (mpIter fanRunner fanReq fanSched 0 fanEngine).1 0 2 =
      some TaskStatus.running ∧
    (mpIter fanRunner fanReq fanSched 0 fanEngine).1.running = [(0, 2)] ∧
    (mpIter fanRunner fanReq fanSched 0 fanEngine).2 = false := by
  refine ⟨by decide, by decide, by decide, by decide⟩

/-- Claim C9 (amended): a task's failure does not abort other tasks —
`process_result` changes no other task's state and leaves the in-flight
list untouched, so dispatched siblings and independent ready tasks keep
going; in the fan scenario the run terminates with the independent
sibling FINISHED and its result populated, task 0 FAILED with its error
captured, and the job FAILED — though the job may be marked FAILED
transiently while independent tasks are still in flight (the status
recomputation ignores RUNNING tasks), not only at exhaustion. -/
theorem failure_does_not_abort_others :
    (∀ (runner : Nat → Nat → RunOutcome) (e : MPEngine) (jid t : Nat) (j : JobState),
      e.jobs.find? (fun j0 => j0.jobId == jid) = some j →
      (processResult runner e (jid, t)).running = e.running ∧
      ∀ u, u ≠ t →
        taskStatusOf (processResult runner e (jid, t)) jid u =
          some ((j.tasks u).status)) ∧
    ((mpRunAllAux fanRunner fanReq fanSched 2 0 fanEngine).map
        (fun efin => taskStatusOf efin 0 2) = some (some TaskStatus.finished) ∧
      (mpRunAllAux fanRunner fanReq fanSched 2 0 fanEngine).map
        (fun efin => taskResultOf efin 0 2) =
          some (some (some (RunOutcome.ok 2))) ∧
      (mpRunAllAux fanRunner fanReq fanSched 2 0 fanEngine).map
        (fun efin => taskStatusOf efin 0 0) = some (some TaskStatus.failed) ∧
      (mpRunAllAux fanRunner fanReq fanSched 2 0 fanEngine).map
        (fun efin => jobStatusOf efin 0) = some (some JobStatus.failed)) := by
  constructor
  · intro runner e jid t j hfind
    constructor
    · simp only [processResult, hfind]
    · intro u hu
      cases hR : runner jid t with
      | ok v =>
        have hfd := find_updateJobIn
          (fun j0 => { j0 with
            tasks := setTask j0.tasks t { (j.tasks t) with
              status := TaskStatus.finished,
              result := some (RunOutcome.ok v) } })
          (fun x => rfl) hfind
        simp only [processResult, hfind, hR, taskStatusOf]
        rw [hfd]
        simp [setTask_ne _ hu]
      | fail msg =>
        have hfd := find_updateJobIn
          (fun j0 => { j0 with
            tasks := setTask j0.tasks t { (j.tasks t) with
              status := TaskStatus.failed,
              result := some (RunOutcome.fail msg) } })
          (fun x => rfl) hfind
        simp only [processResult, hfind, hR, taskStatusOf]
        rw [hfd]
        simp [setTask_ne _ hu]
  · refine ⟨by decide, by decide, by decide, by decide⟩

/-- Witness for `failure_does_not_abort_others`: processing the failing
in-flight task of the solo engine leaves the in-flight list unchanged. -/
theorem failure_does_not_abort_others_witness :
    (processResult failRunner2 soloMpEngine (0, 0)).running =
      soloMpEngine.running :=
  (failure_does_not_abort_others.1 failRunner2 soloMpEngine 0 0 soloMpJob rfl).1

end Rabix
